import Mathlib

/-!
Verification development for the openmemx memory core.

The definitions below are a shallow embedding of the Python sources:

* `src/openmemx/core_logic.py`   — the surprise scorer (`MemoryLogic.calculate_surprise`),
  modelled over `ℝ` with an explicit `FloatVal` type capturing IEEE NaN/inf results of the
  numpy pipeline (division of a dot product by a product of norms, `np.max`, subtraction).
* `src/openmemx/memory_engine.py` — the `MemoryEngine` state (SQLite tables `Interaction`,
  `KnowledgeNode`, `KnowledgeEdge`, the LanceDB `master_vectors` table) and its operations,
  modelled as pure state transformers over `EngineState`.  The external embedding model
  (`self.logic`, a `SentenceTransformer`) is a collaborator and is modelled by `LogicOracle`,
  whose calls may fail (an exception from the provider) via `Except`.
* `src/openmemx/mcp_server.py`   — `consolidate_memory`, and the conversation registry
  (`get_conversation_id` / `reset_conversation_id`) over `ServerState`.

Machine floats are modelled by exact numbers: scores stored in the metadata store are `Rat`;
the scorer's arithmetic is over `ℝ` together with the `FloatVal` wrapper for the IEEE
exceptional values that the claims are about.  SQLite `ORDER BY timestamp DESC` is modelled
by keeping `interactions` in insertion order and assigning strictly increasing clock values
at each insert, so that reversing the insertion order is exactly the descending time order.
-/

namespace OpenMemX

/-- Row of the SQLite `interaction` table (memory_engine.py, `class Interaction`).
`id` is the autoincrement primary key, `timestamp` the creation instant. -/
structure Interaction where
  id : Nat
  timestamp : Nat
  role : String
  content : String
  surprise_score : Rat
  conversation_id : String
  deriving DecidableEq, Repr

/-- Row of the LanceDB `master_vectors` table (memory_engine.py, `ingest_interaction`,
the `data_packet` dict).  `id` is `str(interaction_id)`. -/
structure VectorRecord where
  id : String
  vector : List Rat
  content : String
  role : String
  conversation_id : String
  deriving DecidableEq, Repr

/-- Row of the SQLite `knowledgenode` table (memory_engine.py, `class KnowledgeNode`).
The JSON string `node_data` is modelled as the association list it encodes. -/
structure KnowledgeNode where
  id : Nat
  entity : String
  description : String
  node_data : List (String × String)
  deriving DecidableEq, Repr

/-- Row of the SQLite `knowledgeedge` table (memory_engine.py, `class KnowledgeEdge`). -/
structure KnowledgeEdge where
  id : Nat
  source_id : Nat
  target_id : Nat
  relationship : String
  weight : Rat
  deriving DecidableEq, Repr

/-- One element of the list returned by `traverse_graph`.  The Python dict has the four
string fields `source`, `relationship`, `target`, `description`; `targetId` additionally
records the primary key of `target_node` (the node the record was created from) so that
node-level uniqueness of targets can be stated. -/
structure TraverseRec where
  source : String
  relationship : String
  target : String
  description : String
  targetId : Nat
  deriving DecidableEq, Repr

/-- The persistent state handled by one `MemoryEngine`: the metadata store (SQLite),
the vector index (LanceDB `master_vectors`), and the knowledge graph tables, together
with the autoincrement counters and a clock supplying strictly increasing timestamps. -/
structure EngineState where
  interactions : List Interaction
  nextInteractionId : Nat
  vectors : List VectorRecord
  nodes : List KnowledgeNode
  nextNodeId : Nat
  edges : List KnowledgeEdge
  nextEdgeId : Nat
  clock : Nat
  deriving DecidableEq, Repr

/-- Fresh state of a newly initialised `MemoryEngine` (SQLite autoincrement ids start at 1). -/
def emptyState : EngineState :=
  { interactions := [], nextInteractionId := 1, vectors := [], nodes := [], nextNodeId := 1,
    edges := [], nextEdgeId := 1, clock := 0 }

/-- Interface of the `MemoryLogic` collaborator as used by `MemoryEngine`: the surprise
computation (which internally calls the external embedding model and therefore may raise)
and the raw embedding call `self.logic.model.encode` used for the vector record.  The law
`surprise_empty` is the empty-history short circuit of `calculate_surprise`
(core_logic.py lines 32–33: an empty history returns 1.0 before any embedding call, so
that path cannot fail); it is proved for the arithmetic model in `calculate_surprise` below. -/
structure LogicOracle where
  calcSurprise : String → List String → Except Unit Rat
  encode : String → Except Unit (List Rat)
  surprise_empty : ∀ c, calcSurprise c [] = Except.ok 1

/-- `MemoryEngine.retrieve_episodic`: rows of one conversation, newest first
(`ORDER BY timestamp DESC LIMIT limit`); see the module comment for the time model. -/
def retrieve_episodic (st : EngineState) (conversation_id : String) (limit : Nat) :
    List Interaction :=
  ((st.interactions.filter (fun i => i.conversation_id == conversation_id)).reverse).take limit

/-- `MemoryEngine.ingest_interaction`: compute the surprise score from the 50 most recent
rows of the conversation, commit the row to the metadata store, then embed the content and
append the vector record.  The returned state is the state of the two stores when the call
returns or raises; a raised embedding error after the SQLite commit leaves the committed
row in place, exactly as in the source (the `Session` commit on line 81 precedes the
`encode` call on line 87). -/
def ingest_interaction (logic : LogicOracle) (st : EngineState)
    (conversation_id role content : String) : EngineState × Except Unit Nat :=
  let history := retrieve_episodic st conversation_id 50
  let hist_contents := history.map (fun h => h.content)
  match logic.calcSurprise content hist_contents with
  | Except.error e => (st, Except.error e)
  | Except.ok surprise_score =>
    let interaction : Interaction :=
      { id := st.nextInteractionId, timestamp := st.clock, role := role, content := content,
        surprise_score := surprise_score, conversation_id := conversation_id }
    let st1 : EngineState :=
      { st with interactions := st.interactions ++ [interaction],
                nextInteractionId := st.nextInteractionId + 1, clock := st.clock + 1 }
    match logic.encode content with
    | Except.error e => (st1, Except.error e)
    | Except.ok embedding =>
      let packet : VectorRecord :=
        { id := toString interaction.id, vector := embedding, content := content,
          role := role, conversation_id := conversation_id }
      ({ st1 with vectors := st1.vectors ++ [packet] }, Except.ok interaction.id)

/-- `MemoryEngine.prune_interactions`: collect the rows of the conversation with score
below the threshold, and if any exist delete them from the metadata store and issue the
mirrored `id IN (...)` deletion against the vector index; returns the new state and the
number of pruned identities. -/
def prune_interactions (st : EngineState) (conversation_id : String) (threshold : Rat) :
    EngineState × Nat :=
  let to_prune := st.interactions.filter
    (fun i => i.conversation_id == conversation_id && decide (i.surprise_score < threshold))
  let ids_to_prune := to_prune.map (fun i => toString i.id)
  if ids_to_prune = [] then (st, 0)
  else
    let st1 : EngineState :=
      { st with
        interactions := st.interactions.filter (fun i =>
          !(i.conversation_id == conversation_id && decide (i.surprise_score < threshold))),
        vectors := st.vectors.filter (fun v => !(ids_to_prune.contains v.id)) }
    (st1, ids_to_prune.length)

/-- `mcp_server.consolidate_memory`: read the up-to-100 most recent rows, keep those with
score above 0.5 as promotion candidates, then prune below 0.1.  Returns the new state, the
promoted rows, and the pruned count. -/
def consolidate_memory (st : EngineState) (conversation_id : String) :
    EngineState × List Interaction × Nat :=
  let history := retrieve_episodic st conversation_id 100
  let high_surprise := history.filter (fun h => decide (mkRat 1 2 < h.surprise_score))
  let pruned := prune_interactions st conversation_id (mkRat 1 10)
  (pruned.1, high_surprise, pruned.2)

/-- Python `dict` update of one key: replace the value at the first occurrence of the key,
or append the binding if the key is absent (CPython preserves insertion order). -/
def dictInsert : List (String × String) → String → String → List (String × String)
  | [], k, v => [(k, v)]
  | (k', v') :: rest, k, v =>
    if k' = k then (k, v) :: rest else (k', v') :: dictInsert rest k v

/-- Python `current_data.update(node_data)`: fold the new bindings into the old dict,
new keys winning on conflict. -/
def dictUpdate (old new : List (String × String)) : List (String × String) :=
  new.foldl (fun d kv => dictInsert d kv.1 kv.2) old

/-- Python `dict` lookup on the association-list model. -/
def dictFind : List (String × String) → String → Option String
  | [], _ => none
  | (k', v) :: rest, k => if k' = k then some v else dictFind rest k

/-- The node-data update of `add_knowledge_node` on an existing node: Python's
`if node_data:` is false for `None` and for the empty dict (no merge happens), else the
old dict is updated with the new bindings. -/
def mergedNodeData (old : List (String × String))
    (node_data : Option (List (String × String))) : List (String × String) :=
  match node_data with
  | none => old
  | some d => if d = [] then old else dictUpdate old d

/-- `MemoryEngine.add_knowledge_node`: if a node with this entity exists, append to its
description and (when `node_data` is truthy, i.e. neither `None` nor `{}`) merge the
attribute dicts; otherwise create a fresh node. -/
def add_knowledge_node (st : EngineState) (entity description : String)
    (node_data : Option (List (String × String))) : EngineState × Nat :=
  match st.nodes.find? (fun n => n.entity == entity) with
  | some existing =>
    let newDescription := existing.description ++ "\n---\n" ++ description
    let updated : KnowledgeNode :=
      { existing with description := newDescription,
                      node_data := mergedNodeData existing.node_data node_data }
    ({ st with nodes := st.nodes.map (fun n => if n.id = existing.id then updated else n) },
     existing.id)
  | none =>
    let node : KnowledgeNode :=
      { id := st.nextNodeId, entity := entity, description := description,
        node_data := (match node_data with | none => [] | some d => d) }
    ({ st with nodes := st.nodes ++ [node], nextNodeId := st.nextNodeId + 1 }, node.id)

/-- `MemoryEngine.add_knowledge_edge`: resolve both endpoints by entity; if either is
missing raise (`ValueError("Source or Target entity not found in Knowledge Graph")`)
without touching the state, else append the edge row. -/
def add_knowledge_edge (st : EngineState) (source_entity target_entity relationship : String)
    (weight : Rat) : EngineState × Except String Nat :=
  match st.nodes.find? (fun n => n.entity == source_entity),
        st.nodes.find? (fun n => n.entity == target_entity) with
  | some source, some target =>
    let edge : KnowledgeEdge :=
      { id := st.nextEdgeId, source_id := source.id, target_id := target.id,
        relationship := relationship, weight := weight }
    ({ st with edges := st.edges ++ [edge], nextEdgeId := st.nextEdgeId + 1 },
     Except.ok edge.id)
  | _, _ => (st, Except.error "Source or Target entity not found in Knowledge Graph")

/-- `session.get(KnowledgeNode, edge.target_id)`: primary-key lookup. -/
def findNode (nodes : List KnowledgeNode) (nid : Nat) : Option KnowledgeNode :=
  nodes.find? (fun n => n.id == nid)

/-- Number of graph nodes whose id is not yet in the visited set (termination measure for
the breadth-first loop of `traverse_graph`). -/
def unvisitedCount (nodes : List KnowledgeNode) (visited : List Nat) : Nat :=
  (nodes.filter (fun n => !(visited.contains n.id))).length

/-- The inner `for edge in edges` loop of `traverse_graph`: walk the out-edges of
`current`, and for each resolvable, not-yet-visited target add it to the visited set,
produce a result record and schedule the target at depth + 1.  Returns the grown visited
set, the records produced by this node (in edge order) and the queue entries to push. -/
def visitEdges (nodes : List KnowledgeNode) (current : KnowledgeNode) (depth : Nat) :
    List KnowledgeEdge → List Nat →
    List Nat × List TraverseRec × List (KnowledgeNode × Nat)
  | [], visited => (visited, [], [])
  | e :: rest, visited =>
    match findNode nodes e.target_id with
    | none => visitEdges nodes current depth rest visited
    | some target_node =>
      if visited.contains target_node.id then
        visitEdges nodes current depth rest visited
      else
        let r : TraverseRec :=
          { source := current.entity, relationship := e.relationship,
            target := target_node.entity, description := target_node.description,
            targetId := target_node.id }
        let next := visitEdges nodes current depth rest (target_node.id :: visited)
        (next.1, r :: next.2.1, (target_node, depth + 1) :: next.2.2)

/-- The `while queue` loop of `traverse_graph`: pop the front of the queue; if the node's
depth has reached `max_depth` skip its expansion (`continue`), else expand its out-edges
(in table order) via `visitEdges`.  Terminates because every pushed queue entry is a graph
node newly added to the visited set. -/
def bfsLoop (nodes : List KnowledgeNode) (edges : List KnowledgeEdge) (max_depth : Nat) :
    List (KnowledgeNode × Nat) → List Nat → List TraverseRec → List TraverseRec
  | [], _, results => results
  | (current, depth) :: queue, visited, results =>
    if max_depth ≤ depth then
      bfsLoop nodes edges max_depth queue visited results
    else
      bfsLoop nodes edges max_depth
        (queue ++ (visitEdges nodes current depth
          (edges.filter (fun e => e.source_id == current.id)) visited).2.2)
        (visitEdges nodes current depth
          (edges.filter (fun e => e.source_id == current.id)) visited).1
        (results ++ (visitEdges nodes current depth
          (edges.filter (fun e => e.source_id == current.id)) visited).2.1)
  termination_by queue visited _ => 2 * unvisitedCount nodes visited + queue.length
  decreasing_by
  · simp only [List.length_cons]
    omega
  · have hmono : ∀ (p q : KnowledgeNode → Bool) (l : List KnowledgeNode),
        (∀ n, p n = true → q n = true) →
        (l.filter p).length ≤ (l.filter q).length := by
      intro p q l hpq
      induction l with
      | nil => simp
      | cons a l ih =>
        cases hp : p a
        · cases hq : q a
          · simpa [List.filter_cons, hp, hq] using ih
          · have h := ih
            simp [List.filter_cons, hp, hq]
            omega
        · have hq := hpq a hp
          have h := ih
          simp [List.filter_cons, hp, hq]
          omega
    have hdrop : ∀ (p q : KnowledgeNode → Bool) (l : List KnowledgeNode)
        (t : KnowledgeNode),
        (∀ n, p n = true → q n = true) → t ∈ l → p t = false → q t = true →
        (l.filter p).length + 1 ≤ (l.filter q).length := by
      intro p q l t hpq ht hpt hqt
      induction l with
      | nil => cases ht
      | cons a l ih =>
        rcases List.mem_cons.mp ht with rfl | htl
        · have h := hmono p q l hpq
          simp [List.filter_cons, hpt, hqt]
          omega
        · cases hp : p a
          · cases hq : q a
            · simpa [List.filter_cons, hp, hq] using ih htl
            · have h := ih htl
              simp [List.filter_cons, hp, hq]
              omega
          · have hq := hpq a hp
            have h := ih htl
            simp [List.filter_cons, hp, hq]
            omega
    have key : ∀ (es : List KnowledgeEdge) (v : List Nat),
        unvisitedCount nodes (visitEdges nodes current depth es v).1
            + (visitEdges nodes current depth es v).2.2.length
          ≤ unvisitedCount nodes v := by
      intro es
      induction es with
      | nil => intro v; simp [visitEdges]
      | cons e rest ih =>
        intro v
        simp only [visitEdges]
        split
        · exact ih v
        · rename_i target_node hfind
          by_cases hvis : v.contains target_node.id = true
          · rw [if_pos hvis]
            exact ih v
          · rw [if_neg hvis]
            dsimp only
            have hmem : target_node ∈ nodes := List.mem_of_find?_eq_some hfind
            have hvf : v.contains target_node.id = false := by
              revert hvis
              cases v.contains target_node.id <;> simp
            have h1 := ih (target_node.id :: v)
            have hpq : ∀ n : KnowledgeNode,
                (!((target_node.id :: v).contains n.id)) = true →
                (!(v.contains n.id)) = true := by
              intro n hn
              cases hcv : v.contains n.id
              · rfl
              · rw [List.contains_cons, hcv, Bool.or_true] at hn
                cases hn
            have hpt : (!((target_node.id :: v).contains target_node.id)) = false := by
              rw [List.contains_cons]
              simp
            have hqt : (!(v.contains target_node.id)) = true := by
              rw [hvf]
              rfl
            have h2 : unvisitedCount nodes (target_node.id :: v) + 1
                ≤ unvisitedCount nodes v :=
              hdrop (fun n => !((target_node.id :: v).contains n.id))
                (fun n => !(v.contains n.id)) nodes target_node hpq hmem hpt hqt
            simp only [List.length_cons]
            omega
    have hk := key (edges.filter (fun e => e.source_id == current.id)) visited
    simp only [List.length_append, List.length_cons]
    omega

/-- `MemoryEngine.traverse_graph`: breadth-first walk from the node with the given entity,
returning `[]` when the start entity is unknown; the visited set is seeded with the
start node. -/
def traverse_graph (st : EngineState) (start_entity : String) (max_depth : Nat) :
    List TraverseRec :=
  match st.nodes.find? (fun n => n.entity == start_entity) with
  | none => []
  | some start_node =>
    bfsLoop st.nodes st.edges max_depth [(start_node, 0)] [start_node.id] []

/-- The conversation-identity state of `mcp_server`: the persisted
`project_registry.json` mapping working directory to conversation id, and the in-process
`_current_conversation_id` cache. -/
structure ServerState where
  registry : List (String × String)
  currentConversationId : Option String
  deriving DecidableEq, Repr

/-- `mcp_server.get_conversation_id`: return the cached id if set; otherwise look the
working directory up in the registry; otherwise store and return the freshly generated id
(`gen` stands for the `auto_<timestamp>_<uuid>` string generated on that call). -/
def get_conversation_id (gen : String) (cwd : String) (st : ServerState) :
    String × ServerState :=
  match st.currentConversationId with
  | some cid => (cid, st)
  | none =>
    match st.registry.lookup cwd with
    | some cid => (cid, { st with currentConversationId := some cid })
    | none =>
      (gen, { registry := dictInsert st.registry cwd gen, currentConversationId := some gen })

/-- `mcp_server.reset_conversation_id`: unconditionally generate, cache and persist a
fresh id for the working directory. -/
def reset_conversation_id (gen : String) (cwd : String) (st : ServerState) :
    String × ServerState :=
  (gen, { registry := dictInsert st.registry cwd gen, currentConversationId := some gen })

/-- Result of an IEEE floating-point computation, as produced by the numpy pipeline of
`calculate_surprise`: either an exceptional value or an exact real number. -/
inductive FloatVal : Type where
  | nan : FloatVal
  | posInf : FloatVal
  | negInf : FloatVal
  | val : ℝ → FloatVal

/-- Dot product of two equal-length vectors (`np.dot` of one row of `hist_embeddings`
with `new_embedding`). -/
def dotList : List ℝ → List ℝ → ℝ
  | a :: as, b :: bs => a * b + dotList as bs
  | _, _ => 0

/-- Sum of squares of the entries of a vector. -/
def normSq (v : List ℝ) : ℝ := (v.map (fun x => x * x)).sum

/-- Euclidean norm (`np.linalg.norm`). -/
noncomputable def norm2 (v : List ℝ) : ℝ := Real.sqrt (normSq v)

/-- IEEE division: a zero divisor yields NaN for a zero dividend and a signed infinity
otherwise (numpy emits a warning and continues with these values). -/
noncomputable def fdiv (a b : ℝ) : FloatVal :=
  if b = 0 then (if a = 0 then FloatVal.nan else if 0 < a then FloatVal.posInf
    else FloatVal.negInf)
  else FloatVal.val (a / b)

/-- One entry of the `similarities` array of `calculate_surprise` (core_logic.py
lines 39–41): the dot product of a historical embedding with the new embedding,
divided by the product of their norms.  No zero-norm guard is present in the source. -/
noncomputable def cosineSim (h newE : List ℝ) : FloatVal :=
  fdiv (dotList h newE) (norm2 h * norm2 newE)

/-- IEEE pairwise maximum as used by `np.max` (`np.maximum.reduce`): NaN propagates. -/
noncomputable def fmax2 : FloatVal → FloatVal → FloatVal
  | FloatVal.nan, _ => FloatVal.nan
  | _, FloatVal.nan => FloatVal.nan
  | FloatVal.posInf, _ => FloatVal.posInf
  | _, FloatVal.posInf => FloatVal.posInf
  | FloatVal.negInf, y => y
  | x, FloatVal.negInf => x
  | FloatVal.val a, FloatVal.val b => FloatVal.val (max a b)

/-- `np.max` over a nonempty array; the empty case is unreachable in
`calculate_surprise` (the empty history returns early). -/
noncomputable def fmaxList : List FloatVal → FloatVal
  | [] => FloatVal.nan
  | x :: xs => xs.foldl fmax2 x

/-- The final `1.0 - max_sim` of `calculate_surprise`, on IEEE values. -/
noncomputable def oneMinus : FloatVal → FloatVal
  | FloatVal.nan => FloatVal.nan
  | FloatVal.posInf => FloatVal.negInf
  | FloatVal.negInf => FloatVal.posInf
  | FloatVal.val x => FloatVal.val (1 - x)

/-- `MemoryLogic.calculate_surprise` (core_logic.py lines 27–47), parametrised by the
external embedding model `encode` (`self.model.encode`, a black box here as in §6 of the
design): an empty history short-circuits to 1.0; otherwise the content and every history
element are embedded, the cosine similarity of the new embedding with each historical
embedding is computed, and the score is one minus their maximum. -/
noncomputable def calculate_surprise (encode : String → List ℝ)
    (new_content : String) (historical_contents : List String) : FloatVal :=
  if historical_contents = [] then FloatVal.val 1
  else
    let new_embedding := encode new_content
    let hist_embeddings := historical_contents.map encode
    let similarities := hist_embeddings.map (fun h => cosineSim h new_embedding)
    oneMinus (fmaxList similarities)

/-- A score is an ordinary number in the unit interval (the range claimed for the
surprise scorer). -/
def scoreInUnit (f : FloatVal) : Prop := ∃ x : ℝ, f = FloatVal.val x ∧ 0 ≤ x ∧ x ≤ 1

/-- A score is an ordinary (non-exceptional) number. -/
def scoreIsNumber (f : FloatVal) : Prop := ∃ x : ℝ, f = FloatVal.val x

/-- Embedding model sending `"a"` to `[1]` and everything else to `[-1]`:
two anti-parallel unit vectors, cosine similarity exactly −1. -/
noncomputable def embOpp : String → List ℝ := fun s => if s = "a" then [1] else [-1]

/-- Embedding model sending `"a"` to `[1]` and everything else to the zero vector. -/
noncomputable def embZero : String → List ℝ := fun s => if s = "a" then [1] else [0]

/-- Oracle for a `MemoryLogic` whose embedding provider fails on every `encode` call
while the surprise computation still succeeds (as it does, without any embedding call,
on an empty history). -/
def failingEncodeLogic : LogicOracle :=
  { calcSurprise := fun _ _ => Except.ok 1,
    encode := fun _ => Except.error (),
    surprise_empty := fun _ => rfl }

/-- Oracle for a `MemoryLogic` whose embedding provider fails while computing the
surprise score of any content with a nonempty history (the first `encode` call of
`calculate_surprise`), and also on the vector-index `encode`. -/
def failingSurpriseLogic : LogicOracle :=
  { calcSurprise := fun _ h => if h = [] then Except.ok 1 else Except.error (),
    encode := fun _ => Except.error (),
    surprise_empty := fun _ => rfl }

/-- Oracle for a fully healthy `MemoryLogic` collaborator. -/
def okLogic : LogicOracle :=
  { calcSurprise := fun _ h => if h = [] then Except.ok 1 else Except.ok (mkRat 1 2),
    encode := fun _ => Except.ok [1],
    surprise_empty := fun _ => rfl }

/-- A two-node cyclic knowledge graph: entities `"A"` and `"B"` with edges
`A → B` and `B → A` (the cycle of §8's traversal-termination property). -/
def cyclicState : EngineState :=
  { emptyState with
    nodes := [{ id := 1, entity := "A", description := "desc A", node_data := [] },
              { id := 2, entity := "B", description := "desc B", node_data := [] }],
    nextNodeId := 3,
    edges := [{ id := 1, source_id := 1, target_id := 2, relationship := "knows",
                weight := 1 },
              { id := 2, source_id := 2, target_id := 1, relationship := "knows",
                weight := 1 }],
    nextEdgeId := 3 }

/-- Two nodes with two parallel edges `A → B` carrying different relationship labels. -/
def parallelEdgeState : EngineState :=
  { emptyState with
    nodes := [{ id := 1, entity := "A", description := "desc A", node_data := [] },
              { id := 2, entity := "B", description := "desc B", node_data := [] }],
    nextNodeId := 3,
    edges := [{ id := 1, source_id := 1, target_id := 2, relationship := "r1",
                weight := 1 },
              { id := 2, source_id := 1, target_id := 2, relationship := "r2",
                weight := 1 }],
    nextEdgeId := 3 }

/-- A conversation `"c"` with three scored interactions: one promotable (score 7/10),
one in the grey zone (3/10), one prunable (1/20); the vector index mirrors all three. -/
def consolidationState : EngineState :=
  { emptyState with
    interactions :=
      [{ id := 1, timestamp := 0, role := "user", content := "keep-high",
         surprise_score := mkRat 7 10, conversation_id := "c" },
       { id := 2, timestamp := 1, role := "user", content := "keep-grey",
         surprise_score := mkRat 3 10, conversation_id := "c" },
       { id := 3, timestamp := 2, role := "user", content := "drop-low",
         surprise_score := mkRat 1 20, conversation_id := "c" }],
    nextInteractionId := 4,
    vectors :=
      [{ id := "1", vector := [1], content := "keep-high", role := "user",
         conversation_id := "c" },
       { id := "2", vector := [1], content := "keep-grey", role := "user",
         conversation_id := "c" },
       { id := "3", vector := [1], content := "drop-low", role := "user",
         conversation_id := "c" }],
    clock := 3 }

/-- A knowledge graph holding the single node `"X"` with description `"first"` and one
attribute. -/
def singleNodeState : EngineState :=
  { emptyState with
    nodes := [{ id := 1, entity := "X", description := "first",
                node_data := [("a", "1")] }],
    nextNodeId := 2 }

theorem dotList_nil_left (b : List ℝ) : dotList [] b = 0 := by
  cases b <;> rfl

theorem dotList_nil_right (a : List ℝ) : dotList a [] = 0 := by
  cases a <;> rfl

theorem normSq_nil : normSq ([] : List ℝ) = 0 := by
  simp [normSq]

theorem normSq_cons (a : ℝ) (v : List ℝ) : normSq (a :: v) = a * a + normSq v := by
  simp [normSq]

theorem normSq_nonneg (v : List ℝ) : 0 ≤ normSq v := by
  induction v with
  | nil => rw [normSq_nil]
  | cons a v ih =>
    rw [normSq_cons]
    nlinarith [mul_self_nonneg a]

theorem normSq_eq_zero_dot {a : List ℝ} (b : List ℝ) (h : normSq a = 0) :
    dotList a b = 0 := by
  induction a generalizing b with
  | nil => exact dotList_nil_left b
  | cons x xs ih =>
    rw [normSq_cons] at h
    have hx2 : x * x = 0 := by nlinarith [mul_self_nonneg x, normSq_nonneg xs]
    have hxs : normSq xs = 0 := by nlinarith [mul_self_nonneg x, normSq_nonneg xs]
    have hx : x = 0 := by nlinarith
    cases b with
    | nil => exact dotList_nil_right _
    | cons y ys =>
      show x * y + dotList xs ys = 0
      rw [hx, ih ys hxs]
      ring

theorem dotList_comm (a b : List ℝ) : dotList a b = dotList b a := by
  induction a generalizing b with
  | nil => rw [dotList_nil_left, dotList_nil_right]
  | cons x xs ih =>
    cases b with
    | nil => rw [dotList_nil_left, dotList_nil_right]
    | cons y ys =>
      show x * y + dotList xs ys = y * x + dotList ys xs
      rw [ih ys, mul_comm]

theorem dotList_sq_le (a b : List ℝ) : (dotList a b) ^ 2 ≤ normSq a * normSq b := by
  induction a generalizing b with
  | nil =>
    rw [dotList_nil_left, normSq_nil]
    norm_num
  | cons x xs ih =>
    cases b with
    | nil =>
      rw [dotList_nil_right, normSq_nil]
      norm_num
    | cons y ys =>
      have ih' := ih ys
      have hd : dotList (x :: xs) (y :: ys) = x * y + dotList xs ys := rfl
      rw [hd, normSq_cons, normSq_cons]
      have hH : 0 ≤ normSq xs := normSq_nonneg xs
      have hV : 0 ≤ normSq ys := normSq_nonneg ys
      have hs : Real.sqrt (normSq xs) ^ 2 = normSq xs := Real.sq_sqrt hH
      have ht : Real.sqrt (normSq ys) ^ 2 = normSq ys := Real.sq_sqrt hV
      have hs0 : 0 ≤ Real.sqrt (normSq xs) := Real.sqrt_nonneg _
      have ht0 : 0 ≤ Real.sqrt (normSq ys) := Real.sqrt_nonneg _
      have hdle : |dotList xs ys| ≤ Real.sqrt (normSq xs) * Real.sqrt (normSq ys) := by
        have h1 : Real.sqrt ((dotList xs ys) ^ 2)
            ≤ Real.sqrt (normSq xs * normSq ys) := Real.sqrt_le_sqrt ih'
        rwa [Real.sqrt_sq_eq_abs, Real.sqrt_mul hH] at h1
      have hd1 : dotList xs ys ≤ Real.sqrt (normSq xs) * Real.sqrt (normSq ys) :=
        le_of_abs_le hdle
      have hd2 : -(Real.sqrt (normSq xs) * Real.sqrt (normSq ys)) ≤ dotList xs ys :=
        neg_le_of_abs_le hdle
      have key : 2 * (x * y) * dotList xs ys
          ≤ x ^ 2 * normSq ys + y ^ 2 * normSq xs := by
        rcases le_or_lt 0 (x * y) with hxy | hxy
        · have h1 : 2 * (x * y) * dotList xs ys
              ≤ 2 * (x * y) * (Real.sqrt (normSq xs) * Real.sqrt (normSq ys)) := by
            apply mul_le_mul_of_nonneg_left hd1
            linarith
          have h2 : 2 * (x * y) * (Real.sqrt (normSq xs) * Real.sqrt (normSq ys))
              ≤ x ^ 2 * normSq ys + y ^ 2 * normSq xs := by
            nlinarith [sq_nonneg (x * Real.sqrt (normSq ys) - y * Real.sqrt (normSq xs)),
              hs, ht]
          linarith
        · have h1 : 2 * (x * y) * dotList xs ys
              ≤ 2 * (x * y) * (-(Real.sqrt (normSq xs) * Real.sqrt (normSq ys))) := by
            apply mul_le_mul_of_nonpos_left hd2
            linarith
          have h2 : 2 * (x * y) * (-(Real.sqrt (normSq xs) * Real.sqrt (normSq ys)))
              ≤ x ^ 2 * normSq ys + y ^ 2 * normSq xs := by
            nlinarith [sq_nonneg (x * Real.sqrt (normSq ys) + y * Real.sqrt (normSq xs)),
              hs, ht]
          linarith
      nlinarith [key, ih']

theorem cosineSim_cases (h v : List ℝ) :
    cosineSim h v = FloatVal.nan ∨
    ∃ x : ℝ, cosineSim h v = FloatVal.val x ∧ -1 ≤ x ∧ x ≤ 1 := by
  unfold cosineSim fdiv
  by_cases hz : norm2 h * norm2 v = 0
  · left
    have hd : dotList h v = 0 := by
      rcases mul_eq_zero.mp hz with h1 | h1
      · have h2 : normSq h ≤ 0 := Real.sqrt_eq_zero'.mp h1
        exact normSq_eq_zero_dot v (le_antisymm h2 (normSq_nonneg h))
      · have h2 : normSq v ≤ 0 := Real.sqrt_eq_zero'.mp h1
        rw [dotList_comm]
        exact normSq_eq_zero_dot h (le_antisymm h2 (normSq_nonneg v))
    rw [if_pos hz, if_pos hd]
  · right
    rw [if_neg hz]
    refine ⟨_, rfl, ?_, ?_⟩
    all_goals
      have hpos : 0 < norm2 h * norm2 v :=
        lt_of_le_of_ne (mul_nonneg (Real.sqrt_nonneg _) (Real.sqrt_nonneg _)) (Ne.symm hz)
      have habs : |dotList h v| ≤ norm2 h * norm2 v := by
        have h1 : Real.sqrt ((dotList h v) ^ 2)
            ≤ Real.sqrt (normSq h * normSq v) := Real.sqrt_le_sqrt (dotList_sq_le h v)
        rw [Real.sqrt_sq_eq_abs, Real.sqrt_mul (normSq_nonneg h)] at h1
        exact h1
    · rw [le_div_iff hpos]
      have h2 := neg_le_of_abs_le habs
      linarith
    · rw [div_le_one hpos]
      exact le_of_abs_le habs

theorem fmax2_nan_right (x : FloatVal) : fmax2 x FloatVal.nan = FloatVal.nan := by
  cases x <;> rfl

theorem fmax2_bounded (a b : FloatVal)
    (ha : a = FloatVal.nan ∨ ∃ x : ℝ, a = FloatVal.val x ∧ -1 ≤ x ∧ x ≤ 1)
    (hb : b = FloatVal.nan ∨ ∃ x : ℝ, b = FloatVal.val x ∧ -1 ≤ x ∧ x ≤ 1) :
    fmax2 a b = FloatVal.nan ∨
    ∃ x : ℝ, fmax2 a b = FloatVal.val x ∧ -1 ≤ x ∧ x ≤ 1 := by
  rcases ha with rfl | ⟨x, rfl, hx1, hx2⟩
  · left
    cases b <;> rfl
  · rcases hb with rfl | ⟨y, rfl, hy1, hy2⟩
    · left
      exact fmax2_nan_right _
    · right
      exact ⟨max x y, rfl, le_max_of_le_left hx1, max_le hx2 hy2⟩

theorem foldl_fmax2_bounded (l : List FloatVal) (a : FloatVal)
    (ha : a = FloatVal.nan ∨ ∃ x : ℝ, a = FloatVal.val x ∧ -1 ≤ x ∧ x ≤ 1)
    (hl : ∀ f ∈ l, f = FloatVal.nan ∨ ∃ x : ℝ, f = FloatVal.val x ∧ -1 ≤ x ∧ x ≤ 1) :
    l.foldl fmax2 a = FloatVal.nan ∨
    ∃ x : ℝ, l.foldl fmax2 a = FloatVal.val x ∧ -1 ≤ x ∧ x ≤ 1 := by
  induction l generalizing a with
  | nil => exact ha
  | cons b l ih =>
    exact ih (fmax2 a b) (fmax2_bounded a b ha (hl b (List.mem_cons_self b l)))
      (fun f hf => hl f (List.mem_cons_of_mem b hf))

theorem fmaxList_bounded (l : List FloatVal) (hne : l ≠ [])
    (hl : ∀ f ∈ l, f = FloatVal.nan ∨ ∃ x : ℝ, f = FloatVal.val x ∧ -1 ≤ x ∧ x ≤ 1) :
    fmaxList l = FloatVal.nan ∨
    ∃ x : ℝ, fmaxList l = FloatVal.val x ∧ -1 ≤ x ∧ x ≤ 1 := by
  cases l with
  | nil => exact absurd rfl hne
  | cons a l =>
    exact foldl_fmax2_bounded l a (hl a (List.mem_cons_self a l))
      (fun f hf => hl f (List.mem_cons_of_mem a hf))

theorem foldl_fmax2_nan_acc (l : List FloatVal) :
    l.foldl fmax2 FloatVal.nan = FloatVal.nan := by
  induction l with
  | nil => rfl
  | cons b l ih =>
    show l.foldl fmax2 (fmax2 FloatVal.nan b) = FloatVal.nan
    have h : fmax2 FloatVal.nan b = FloatVal.nan := by cases b <;> rfl
    rw [h]
    exact ih

theorem foldl_fmax2_nan_mem (l : List FloatVal) (a : FloatVal)
    (h : FloatVal.nan ∈ l) : l.foldl fmax2 a = FloatVal.nan := by
  induction l generalizing a with
  | nil => cases h
  | cons b l ih =>
    rcases List.mem_cons.mp h with hb | hb
    · show (l.foldl fmax2 (fmax2 a b))= FloatVal.nan
      rw [← hb, fmax2_nan_right]
      exact foldl_fmax2_nan_acc l
    · exact ih (fmax2 a b) hb

theorem fmaxList_nan (l : List FloatVal) (h : FloatVal.nan ∈ l) :
    fmaxList l = FloatVal.nan := by
  cases l with
  | nil => cases h
  | cons a l =>
    rcases List.mem_cons.mp h with ha | ha
    · show l.foldl fmax2 a = FloatVal.nan
      rw [← ha]
      exact foldl_fmax2_nan_acc l
    · exact foldl_fmax2_nan_mem l a ha

/-- C2, counterexample: with the (external, black-box) embedding model mapping the new
content to `[1]` and the history element to the anti-parallel vector `[-1]`, the cosine
similarity is −1 and `calculate_surprise` returns 2, outside the claimed interval
`[0,1]`. -/
theorem surprise_range_cex : ¬ scoreInUnit (calculate_surprise embOpp "a" ["b"]) := by
  have ha : embOpp "a" = [1] := by
    unfold embOpp
    rw [if_pos rfl]
  have hb : embOpp "b" = [-1] := by
    unfold embOpp
    rw [if_neg (by decide)]
  have hcs : cosineSim [(-1 : ℝ)] [(1 : ℝ)] = FloatVal.val (-1) := by
    have h3 : dotList [(-1 : ℝ)] [(1 : ℝ)] = -1 := by
      show (-1 : ℝ) * 1 + dotList [] [] = -1
      rw [dotList_nil_left]
      ring
    have h1 : norm2 [(-1 : ℝ)] = 1 := by
      unfold norm2
      have : normSq [(-1 : ℝ)] = 1 := by
        rw [normSq_cons, normSq_nil]
        ring
      rw [this, Real.sqrt_one]
    have h2 : norm2 [(1 : ℝ)] = 1 := by
      unfold norm2
      have : normSq [(1 : ℝ)] = 1 := by
        rw [normSq_cons, normSq_nil]
        ring
      rw [this, Real.sqrt_one]
    unfold cosineSim fdiv
    rw [h3, h1, h2]
    norm_num
  have hval : calculate_surprise embOpp "a" ["b"] = FloatVal.val 2 := by
    have heq : calculate_surprise embOpp "a" ["b"]
        = oneMinus (fmaxList
            ((["b"].map embOpp).map (fun h => cosineSim h (embOpp "a")))) := by
      unfold calculate_surprise
      rw [if_neg (by decide)]
    rw [heq]
    simp only [List.map_cons, List.map_nil, ha, hb]
    rw [show fmaxList [cosineSim [(-1 : ℝ)] [(1 : ℝ)]] = cosineSim [(-1 : ℝ)] [(1 : ℝ)]
      from rfl, hcs]
    show FloatVal.val (1 - (-1)) = FloatVal.val 2
    norm_num
  rintro ⟨x, hx, hx0, hx1⟩
  rw [hval] at hx
  have : (2 : ℝ) = x := by
    injection hx
  linarith

/-- C2, amended: for every embedding model, content and history, `calculate_surprise`
returns either NaN (possible when a zero-norm embedding occurs) or an ordinary number in
the interval `[0,2]` — not `[0,1]`, because a negative maximal cosine similarity drives
the score above 1. -/
theorem surprise_range_amended (encode : String → List ℝ) (content : String)
    (hist : List String) :
    calculate_surprise encode content hist = FloatVal.nan ∨
    ∃ x : ℝ, calculate_surprise encode content hist = FloatVal.val x ∧ 0 ≤ x ∧ x ≤ 2 := by
  by_cases hh : hist = []
  · right
    have heq : calculate_surprise encode content hist = FloatVal.val 1 := by
      unfold calculate_surprise
      rw [if_pos hh]
    exact ⟨1, heq, by norm_num, by norm_num⟩
  · have heq : calculate_surprise encode content hist
        = oneMinus (fmaxList
            ((hist.map encode).map (fun h => cosineSim h (encode content)))) := by
      unfold calculate_surprise
      rw [if_neg hh]
    rw [heq]
    have hsims : ∀ f ∈ (hist.map encode).map (fun h => cosineSim h (encode content)),
        f = FloatVal.nan ∨ ∃ x : ℝ, f = FloatVal.val x ∧ -1 ≤ x ∧ x ≤ 1 := by
      intro f hf
      rcases List.mem_map.mp hf with ⟨h, _, rfl⟩
      exact cosineSim_cases h (encode content)
    have hne : (hist.map encode).map (fun h => cosineSim h (encode content)) ≠ [] := by
      simp [hh]
    rcases fmaxList_bounded _ hne hsims with hnan | ⟨m, hm, hm1, hm2⟩
    · left
      rw [hnan]
      rfl
    · right
      rw [hm]
      exact ⟨1 - m, rfl, by linarith, by linarith⟩

theorem calculate_surprise_nan_of_zero_norm (encode : String → List ℝ) (content : String)
    (hist : List String) (h0 : String) (hmem : h0 ∈ hist)
    (hz : normSq (encode h0) = 0) :
    calculate_surprise encode content hist = FloatVal.nan := by
  have hne : hist ≠ [] := by
    intro h
    rw [h] at hmem
    cases hmem
  have heq : calculate_surprise encode content hist
      = oneMinus (fmaxList
          ((hist.map encode).map (fun h => cosineSim h (encode content)))) := by
    unfold calculate_surprise
    rw [if_neg hne]
  rw [heq]
  have hcs : cosineSim (encode h0) (encode content) = FloatVal.nan := by
    unfold cosineSim fdiv
    have hd : dotList (encode h0) (encode content) = 0 := normSq_eq_zero_dot _ hz
    have hn : norm2 (encode h0) = 0 := by
      unfold norm2
      rw [hz, Real.sqrt_zero]
    rw [hd, hn, zero_mul, if_pos rfl, if_pos rfl]
  have hmem2 : FloatVal.nan
      ∈ (hist.map encode).map (fun h => cosineSim h (encode content)) := by
    rw [← hcs]
    exact List.mem_map.mpr ⟨encode h0, List.mem_map.mpr ⟨h0, hmem, rfl⟩, rfl⟩
  rw [fmaxList_nan _ hmem2]
  rfl

/-- C3, amended: a zero-norm historical embedding is not excluded from the similarity
set; its similarity is the IEEE result 0/0 = NaN, which propagates through `np.max` and
the final subtraction, so the returned score is NaN whenever any history element has a
zero-norm embedding. -/
theorem surprise_zero_norm_nan_amended (encode : String → List ℝ) (content : String)
    (hist : List String) (h0 : String) (hmem : h0 ∈ hist)
    (hz : normSq (encode h0) = 0) :
    calculate_surprise encode content hist = FloatVal.nan :=
  calculate_surprise_nan_of_zero_norm encode content hist h0 hmem hz

/-- C3, counterexample: the history `["z"]` embeds to the zero vector `[0]`; the code
does not exclude it and the returned score is NaN rather than a well-defined number. -/
theorem surprise_zero_norm_nan_cex :
    normSq (embZero "z") = 0 ∧
    ¬ scoreIsNumber (calculate_surprise embZero "a" ["z"]) := by
  have hz : embZero "z" = [0] := by
    unfold embZero
    rw [if_neg (by decide)]
  have hzn : normSq (embZero "z") = 0 := by
    rw [hz, normSq_cons, normSq_nil]
    ring
  refine ⟨hzn, ?_⟩
  have hnan : calculate_surprise embZero "a" ["z"] = FloatVal.nan :=
    calculate_surprise_nan_of_zero_norm embZero "a" ["z"] "z" (List.mem_cons_self _ _) hzn
  rintro ⟨x, hx⟩
  rw [hnan] at hx
  cases hx

/-- C3, witness for the amended statement at a concrete input. -/
theorem surprise_zero_norm_nan_amended_witness :
    calculate_surprise embZero "hello" ["z"] = FloatVal.nan := by
  have hz : normSq (embZero "z") = 0 := by
    have h : embZero "z" = [0] := by
      unfold embZero
      rw [if_neg (by decide)]
    rw [h, normSq_cons, normSq_nil]
    ring
  exact surprise_zero_norm_nan_amended embZero "hello" ["z"] "z"
    (List.mem_cons_self _ _) hz

/-- C8: an empty history yields the score exactly 1.0 in the scorer (the short-circuit
before any embedding call), and ingesting into a conversation with no prior rows commits
an interaction whose stored surprise score is exactly 1 — on every path, including a
failing vector-index embedding. -/
theorem first_interaction_novelty_one :
    (∀ (encode : String → List ℝ) (content : String),
      calculate_surprise encode content [] = FloatVal.val 1) ∧
    (∀ (L : LogicOracle) (st : EngineState) (cid role content : String),
      st.interactions.filter (fun i => i.conversation_id == cid) = [] →
      (ingest_interaction L st cid role content).1.interactions
        = st.interactions ++
          [{ id := st.nextInteractionId, timestamp := st.clock, role := role,
             content := content, surprise_score := 1, conversation_id := cid }]) := by
  constructor
  · intro encode content
    unfold calculate_surprise
    rw [if_pos rfl]
  · intro L st cid role content hempty
    have hh : retrieve_episodic st cid 50 = [] := by
      unfold retrieve_episodic
      rw [hempty]
      rfl
    simp only [ingest_interaction, hh, List.map_nil, L.surprise_empty]
    split <;> rfl

/-- C8, witness: the scorer and the store evaluated on concrete inputs. -/
theorem first_interaction_novelty_one_witness :
    calculate_surprise embOpp "hello" [] = FloatVal.val 1 ∧
    (ingest_interaction okLogic emptyState "c" "user" "hello").1.interactions
      = [{ id := 1, timestamp := 0, role := "user", content := "hello",
           surprise_score := 1, conversation_id := "c" }] := by
  constructor
  · exact first_interaction_novelty_one.1 embOpp "hello"
  · have h := first_interaction_novelty_one.2 okLogic emptyState "c" "user" "hello" rfl
    simpa using h

/-- C1, counterexample: on a fresh conversation the surprise computation makes no
embedding call (empty history short-circuit), so with an embedding provider that fails on
every `encode` call, `ingest_interaction` raises an embedding failure — yet the metadata
store has received the interaction while the vector index has not: the two stores
disagree on that path. -/
theorem ingest_embedding_failure_writes_metadata_cex :
    (ingest_interaction failingEncodeLogic emptyState "c" "user" "hello").2
        = Except.error () ∧
    (ingest_interaction failingEncodeLogic emptyState "c" "user" "hello").1.interactions
        ≠ emptyState.interactions ∧
    (ingest_interaction failingEncodeLogic emptyState "c" "user" "hello").1.vectors
        = emptyState.vectors := by
  refine ⟨rfl, ?_, rfl⟩
  decide

/-- C1, amended: an embedding failure inside the surprise computation (the only failure
point that precedes the metadata commit) leaves both stores untouched; but an embedding
failure on the vector-index `encode` call — which happens after the metadata commit —
leaves the interaction recorded in the metadata store with no vector record, so the
all-or-nothing property holds only for the surprise-computation path. -/
theorem ingest_embedding_failure_amended (L : LogicOracle) (st : EngineState)
    (cid role content : String) :
    (L.calcSurprise content ((retrieve_episodic st cid 50).map (fun h => h.content))
        = Except.error () →
      ingest_interaction L st cid role content = (st, Except.error ())) ∧
    (∀ q : Rat,
      L.calcSurprise content ((retrieve_episodic st cid 50).map (fun h => h.content))
          = Except.ok q →
      L.encode content = Except.error () →
      (ingest_interaction L st cid role content).1.interactions
          = st.interactions ++
            [{ id := st.nextInteractionId, timestamp := st.clock, role := role,
               content := content, surprise_score := q, conversation_id := cid }] ∧
      (ingest_interaction L st cid role content).1.vectors = st.vectors ∧
      (ingest_interaction L st cid role content).2 = Except.error ()) := by
  constructor
  · intro hfail
    simp only [ingest_interaction, hfail]
  · intro q hok henc
    refine ⟨?_, ?_, ?_⟩ <;> simp [ingest_interaction, hok, henc]

/-- C1, witness for the amended statement: both failure points exercised on concrete
states. -/
theorem ingest_embedding_failure_amended_witness :
    ingest_interaction failingSurpriseLogic consolidationState "c" "user" "x"
        = (consolidationState, Except.error ()) ∧
    (ingest_interaction failingEncodeLogic emptyState "c2" "user" "y").1.interactions
        = [{ id := 1, timestamp := 0, role := "user", content := "y",
             surprise_score := 1, conversation_id := "c2" }] ∧
    (ingest_interaction failingEncodeLogic emptyState "c2" "user" "y").1.vectors
        = [] := by
  constructor
  · exact (ingest_embedding_failure_amended failingSurpriseLogic consolidationState
      "c" "user" "x").1 rfl
  · have h := (ingest_embedding_failure_amended failingEncodeLogic emptyState
      "c2" "user" "y").2 1 rfl rfl
    exact ⟨by simpa using h.1, h.2.1⟩

/-- C9: two calls of `get_conversation_id` with no intervening reset return the same
conversation id, whatever ids the generator would supply: the first call caches an id
(from the cache, the registry, or freshly generated) and the second call returns the
cached value. -/
theorem resolve_conversation_idempotent (gen1 gen2 cwd : String) (st : ServerState) :
    (get_conversation_id gen2 cwd (get_conversation_id gen1 cwd st).2).1
      = (get_conversation_id gen1 cwd st).1 := by
  rcases st with ⟨reg, cur⟩
  cases cur with
  | some cid => rfl
  | none =>
    unfold get_conversation_id
    cases h : List.lookup cwd reg <;> simp [h]

/-- C5: when either endpoint entity is unknown, `add_knowledge_edge` fails with the
unknown-entity error, leaves the state (hence the edge set) unchanged, and every
subsequent traversal is unaffected. -/
theorem add_edge_unknown_entity_safe (st : EngineState) (se te rel : String) (w : Rat)
    (h : st.nodes.find? (fun n => n.entity == se) = none
       ∨ st.nodes.find? (fun n => n.entity == te) = none) :
    add_knowledge_edge st se te rel w
        = (st, Except.error "Source or Target entity not found in Knowledge Graph") ∧
    (add_knowledge_edge st se te rel w).1.edges = st.edges ∧
    ∀ (s : String) (d : Nat),
      traverse_graph (add_knowledge_edge st se te rel w).1 s d
        = traverse_graph st s d := by
  have hmain : add_knowledge_edge st se te rel w
      = (st, Except.error "Source or Target entity not found in Knowledge Graph") := by
    unfold add_knowledge_edge
    cases h1 : st.nodes.find? (fun n => n.entity == se) <;>
      cases h2 : st.nodes.find? (fun n => n.entity == te)
    · rfl
    · rfl
    · rfl
    · rcases h with h | h
      · rw [h] at h1
        exact Option.noConfusion h1
      · rw [h] at h2
        exact Option.noConfusion h2
  refine ⟨hmain, by rw [hmain], ?_⟩
  intro s d
  rw [hmain]

theorem prune_interactions_no_low (st : EngineState) (cid : String) (th : Rat) :
    ∀ i ∈ (prune_interactions st cid th).1.interactions,
      i.conversation_id = cid → ¬ i.surprise_score < th := by
  intro i hi hcid
  by_cases hnil : ((st.interactions.filter (fun i =>
      i.conversation_id == cid && decide (i.surprise_score < th))).map
        (fun i => toString i.id)) = []
  · have hres : (prune_interactions st cid th).1.interactions = st.interactions := by
      simp only [prune_interactions]
      rw [if_pos hnil]
    have hfil : st.interactions.filter (fun i =>
        i.conversation_id == cid && decide (i.surprise_score < th)) = [] :=
      List.map_eq_nil.mp hnil
    have hnp := List.filter_eq_nil.mp hfil i (by rw [hres] at hi; exact hi)
    intro hlt
    apply hnp
    simp [hcid, hlt]
  · have hres : (prune_interactions st cid th).1.interactions
        = st.interactions.filter (fun i =>
            !(i.conversation_id == cid && decide (i.surprise_score < th))) := by
      simp only [prune_interactions]
      rw [if_neg hnil]
    rw [hres] at hi
    have h2 := (List.mem_filter.mp hi).2
    intro hlt
    simp [hcid, hlt] at h2

theorem prune_interactions_count_and_vectors (st : EngineState) (cid : String)
    (th : Rat) :
    (prune_interactions st cid th).2
        = ((st.interactions.filter (fun i =>
            i.conversation_id == cid && decide (i.surprise_score < th))).map
              (fun i => toString i.id)).length ∧
    (prune_interactions st cid th).1.vectors
        = st.vectors.filter (fun v =>
            !(((st.interactions.filter (fun i =>
              i.conversation_id == cid && decide (i.surprise_score < th))).map
                (fun i => toString i.id)).contains v.id)) := by
  by_cases hnil : ((st.interactions.filter (fun i =>
      i.conversation_id == cid && decide (i.surprise_score < th))).map
        (fun i => toString i.id)) = []
  · constructor
    · simp only [prune_interactions]
      rw [if_pos hnil, hnil]
      rfl
    · simp only [prune_interactions]
      rw [if_pos hnil, hnil]
      have hall : ∀ v ∈ st.vectors, (!(([] : List String).contains v.id)) = true :=
        fun v _ => rfl
      exact (List.filter_eq_self.mpr hall).symm
  · constructor
    · simp only [prune_interactions]
      rw [if_neg hnil]
    · simp only [prune_interactions]
      rw [if_neg hnil]

/-- C4: after `consolidate_memory`, the promoted list is exactly the rows among the
up-to-100 most recent whose score exceeds 0.5 (computed before pruning); no row of the
conversation with score below 0.1 remains in the metadata store; and the pruned count
equals the number of identities removed from the metadata store, with exactly that
identity set filtered out of the vector index. -/
theorem consolidate_promotion_and_pruning (st : EngineState) (cid : String) :
    (consolidate_memory st cid).2.1
        = (retrieve_episodic st cid 100).filter
            (fun h => decide (mkRat 1 2 < h.surprise_score)) ∧
    (∀ i ∈ (consolidate_memory st cid).1.interactions,
        i.conversation_id = cid → ¬ i.surprise_score < mkRat 1 10) ∧
    (consolidate_memory st cid).2.2
        = ((st.interactions.filter (fun i =>
            i.conversation_id == cid && decide (i.surprise_score < mkRat 1 10))).map
              (fun i => toString i.id)).length ∧
    (consolidate_memory st cid).1.vectors
        = st.vectors.filter (fun v =>
            !(((st.interactions.filter (fun i =>
              i.conversation_id == cid
                && decide (i.surprise_score < mkRat 1 10))).map
                  (fun i => toString i.id)).contains v.id)) := by
  refine ⟨rfl, ?_, ?_, ?_⟩
  · exact prune_interactions_no_low st cid (mkRat 1 10)
  · exact (prune_interactions_count_and_vectors st cid (mkRat 1 10)).1
  · exact (prune_interactions_count_and_vectors st cid (mkRat 1 10)).2

/-- C4, witness: consolidation of the concrete three-row conversation promotes the
score-0.7 row, leaves the grey-zone row, prunes exactly one identity and filters it out
of the vector index. -/
theorem consolidate_promotion_and_pruning_witness :
    (consolidate_memory consolidationState "c").2.1
      = [{ id := 1, timestamp := 0, role := "user", content := "keep-high",
           surprise_score := mkRat 7 10, conversation_id := "c" }] ∧
    ¬ ({ id := 2, timestamp := 1, role := "user", content := "keep-grey",
         surprise_score := mkRat 3 10, conversation_id := "c" } : Interaction).surprise_score
        < mkRat 1 10 ∧
    (consolidate_memory consolidationState "c").2.2 = 1 ∧
    (consolidate_memory consolidationState "c").1.vectors
      = [{ id := "1", vector := [1], content := "keep-high", role := "user",
           conversation_id := "c" },
         { id := "2", vector := [1], content := "keep-grey", role := "user",
           conversation_id := "c" }] := by
  have h := consolidate_promotion_and_pruning consolidationState "c"
  refine ⟨h.1.trans (by decide), ?_, h.2.2.1.trans (by decide),
    h.2.2.2.trans (by decide)⟩
  exact h.2.1 _ (by decide) rfl

/-- C5, witness: adding an edge from the known `"X"` to the unknown `"B"` on the
single-node graph. -/
theorem add_edge_unknown_entity_safe_witness :
    add_knowledge_edge singleNodeState "X" "B" "rel" 1
        = (singleNodeState,
           Except.error "Source or Target entity not found in Knowledge Graph") ∧
    traverse_graph (add_knowledge_edge singleNodeState "X" "B" "rel" 1).1 "X" 2
        = traverse_graph singleNodeState "X" 2 := by
  have h := add_edge_unknown_entity_safe singleNodeState "X" "B" "rel" 1
    (Or.inr (by decide))
  exact ⟨h.1, h.2.2 "X" 2⟩

theorem filter_singleton_find? (p : KnowledgeNode → Bool) (l : List KnowledgeNode)
    (a : KnowledgeNode) (h : l.filter p = [a]) : l.find? p = some a := by
  induction l with
  | nil => exact absurd h (by simp)
  | cons b l ih =>
    cases hb : p b
    · simp only [List.filter_cons, hb] at h
      rw [List.find?_cons_of_neg _ (by simp [hb])]
      exact ih (by simpa using h)
    · have h2 : b = a ∧ l.filter p = [] := by simpa [List.filter_cons, hb] using h
      rw [List.find?_cons_of_pos _ hb, h2.1]

theorem dictFind_dictInsert (l : List (String × String)) (k v k' : String) :
    dictFind (dictInsert l k v) k' = if k = k' then some v else dictFind l k' := by
  induction l with
  | nil => by_cases h : k = k' <;> simp [dictInsert, dictFind, h]
  | cons p rest ih =>
    rcases p with ⟨a, b⟩
    show dictFind (if a = k then (k, v) :: rest else (a, b) :: dictInsert rest k v) k'
      = if k = k' then some v else dictFind ((a, b) :: rest) k'
    by_cases hak : a = k
    · rw [if_pos hak]
      by_cases hkk : k = k'
      · simp [dictFind, hkk]
      · subst hak
        simp [dictFind, hkk]
    · rw [if_neg hak]
      by_cases hak' : a = k'
      · have hkk : k ≠ k' := fun hkk => hak (hak'.trans hkk.symm)
        simp [dictFind, hak', hkk]
      · simp [dictFind, hak', ih]

theorem dictFind_eq_none_of_not_mem_keys (l : List (String × String)) (k : String)
    (h : k ∉ l.map Prod.fst) : dictFind l k = none := by
  induction l with
  | nil => rfl
  | cons p rest ih =>
    rcases p with ⟨a, b⟩
    simp only [List.map_cons, List.mem_cons] at h
    push_neg at h
    show dictFind ((a, b) :: rest) k = none
    unfold dictFind
    rw [if_neg (fun hh => h.1 hh.symm)]
    exact ih h.2

theorem dictFind_dictUpdate (old new : List (String × String)) (k : String)
    (hkeys : (new.map Prod.fst).Nodup) :
    dictFind (dictUpdate old new) k
      = (dictFind new k).orElse (fun _ => dictFind old k) := by
  induction new generalizing old with
  | nil => rfl
  | cons p rest ih =>
    rcases p with ⟨k1, v1⟩
    rw [List.map_cons] at hkeys
    obtain ⟨hk1, htl⟩ := List.nodup_cons.mp hkeys
    show dictFind (dictUpdate (dictInsert old k1 v1) rest) k = _
    rw [ih (dictInsert old k1 v1) htl, dictFind_dictInsert]
    by_cases hk : k1 = k
    · subst hk
      rw [dictFind_eq_none_of_not_mem_keys rest k1 hk1]
      simp [dictFind]
    · simp [dictFind, hk]

theorem filter_map_update (nodes : List KnowledgeNode) (e : String)
    (n updated : KnowledgeNode)
    (hids : (nodes.map (fun m => m.id)).Nodup)
    (hone : nodes.filter (fun m => m.entity == e) = [n])
    (hupd : (updated.entity == e) = true) :
    (nodes.map (fun m => if m.id = n.id then updated else m)).filter
        (fun m => m.entity == e) = [updated] := by
  induction nodes with
  | nil => exact absurd hone (by simp)
  | cons a l ih =>
    rw [List.map_cons] at hids
    obtain ⟨hanotin, hids'⟩ := List.nodup_cons.mp hids
    cases ha : (a.entity == e)
    · have hone' : l.filter (fun m => m.entity == e) = [n] := by
        simpa [List.filter_cons, ha] using hone
      have hn_mem : n ∈ l := by
        have : n ∈ l.filter (fun m => m.entity == e) := by
          rw [hone']
          exact List.mem_cons_self _ _
        exact List.mem_of_mem_filter this
      have hne : a.id ≠ n.id := by
        intro hid
        apply hanotin
        rw [hid]
        exact List.mem_map.mpr ⟨n, hn_mem, rfl⟩
      rw [List.map_cons, if_neg hne, List.filter_cons]
      simp only [ha]
      simpa using ih hids' hone'
    · have h1 : a = n ∧ l.filter (fun m => m.entity == e) = [] := by
        have h := hone
        rw [List.filter_cons] at h
        simp only [ha] at h
        simpa using h
      rcases h1 with ⟨rfl, hnil⟩
      rw [List.map_cons, if_pos rfl, List.filter_cons]
      simp only [hupd]
      have htail : (l.map (fun m => if m.id = a.id then updated else m)).filter
          (fun m => m.entity == e) = [] := by
        rw [List.filter_eq_nil]
        intro m hm
        rcases List.mem_map.mp hm with ⟨m0, hm0, rfl⟩
        have hm0ne : m0.id ≠ a.id := by
          intro hid
          apply hanotin
          rw [← hid]
          exact List.mem_map.mpr ⟨m0, hm0, rfl⟩
        rw [if_neg hm0ne]
        have := List.filter_eq_nil.mp hnil m0 hm0
        simpa using this
      simpa using htail

/-- C6: re-adding an existing entity keeps exactly one node for that entity, appends the
new description after the old one (separator `\n---\n`), and merges the attribute dicts
key by key with the new bindings winning; the existing node's id is returned. -/
theorem upsert_existing_node_merges (st : EngineState) (entity d1 : String)
    (node_data : Option (List (String × String))) (n : KnowledgeNode)
    (hone : st.nodes.filter (fun m => m.entity == entity) = [n])
    (hids : (st.nodes.map (fun m => m.id)).Nodup)
    (hkeys : ((node_data.getD []).map Prod.fst).Nodup) :
    (add_knowledge_node st entity d1 node_data).2 = n.id ∧
    ((add_knowledge_node st entity d1 node_data).1.nodes.filter
        (fun m => m.entity == entity))
      = [{ n with
           description := n.description ++ "\n---\n" ++ d1,
           node_data := mergedNodeData n.node_data node_data }] ∧
    (∀ k : String,
      dictFind (mergedNodeData n.node_data node_data) k
      = (dictFind (node_data.getD []) k).orElse (fun _ => dictFind n.node_data k)) := by
  have hfind : st.nodes.find? (fun m => m.entity == entity) = some n :=
    filter_singleton_find? _ _ _ hone
  have hnent : (n.entity == entity) = true := by
    have hmem : n ∈ st.nodes.filter (fun m => m.entity == entity) := by
      rw [hone]
      exact List.mem_cons_self _ _
    exact (List.mem_filter.mp hmem).2
  refine ⟨?_, ?_, ?_⟩
  · simp only [add_knowledge_node, hfind]
  · have h := filter_map_update st.nodes entity n
      { n with
        description := n.description ++ "\n---\n" ++ d1,
        node_data := mergedNodeData n.node_data node_data }
      hids hone (by simpa using hnent)
    simpa only [add_knowledge_node, hfind] using h
  · intro k
    cases node_data with
    | none => rfl
    | some d =>
      by_cases hd : d = []
      · subst hd
        simp [mergedNodeData, dictFind]
      · show dictFind (if d = [] then n.node_data else dictUpdate n.node_data d) k = _
        rw [if_neg hd]
        exact dictFind_dictUpdate n.node_data d k (by simpa using hkeys)

/-- C6, witness: upserting `"X"` again on the single-node graph yields one node whose
description contains both texts and whose attributes merge with the new value winning on
the conflicting key `"a"`. -/
theorem upsert_existing_node_merges_witness :
    (add_knowledge_node singleNodeState "X" "second"
        (some [("a", "2"), ("b", "3")])).2 = 1 ∧
    ((add_knowledge_node singleNodeState "X" "second"
        (some [("a", "2"), ("b", "3")])).1.nodes.filter (fun m => m.entity == "X"))
      = [{ id := 1, entity := "X", description := "first\n---\nsecond",
           node_data := [("a", "2"), ("b", "3")] }] := by
  have h := upsert_existing_node_merges singleNodeState "X" "second"
    (some [("a", "2"), ("b", "3")])
    { id := 1, entity := "X", description := "first", node_data := [("a", "1")] }
    (by decide) (by decide) (by decide)
  exact ⟨h.1, h.2.1.trans (by decide)⟩

theorem nat_contains_iff (l : List Nat) (a : Nat) : l.contains a = true ↔ a ∈ l := by
  induction l with
  | nil => simp
  | cons b l ih =>
    rw [List.contains_cons]
    constructor
    · intro h
      rcases Bool.or_eq_true_iff.mp h with h | h
      · exact List.mem_cons.mpr (Or.inl (by simpa using h))
      · exact List.mem_cons.mpr (Or.inr (ih.mp h))
    · intro h
      rcases List.mem_cons.mp h with rfl | h
      · simp
      · rw [ih.mpr h]
        simp

theorem visitEdges_spec (nodes : List KnowledgeNode) (current : KnowledgeNode)
    (depth : Nat) (es : List KnowledgeEdge) (visited : List Nat) :
    (∀ a ∈ visited, a ∈ (visitEdges nodes current depth es visited).1) ∧
    (∀ r ∈ (visitEdges nodes current depth es visited).2.1,
        r.targetId ∉ visited
          ∧ r.targetId ∈ (visitEdges nodes current depth es visited).1) ∧
    ((visitEdges nodes current depth es visited).2.1.map
        (fun r => r.targetId)).Nodup := by
  induction es generalizing visited with
  | nil =>
    refine ⟨fun a ha => ha, fun r hr => absurd hr (by simp [visitEdges]), ?_⟩
    simp [visitEdges]
  | cons e rest ih =>
    cases hfind : findNode nodes e.target_id with
    | none =>
      have heq : visitEdges nodes current depth (e :: rest) visited
          = visitEdges nodes current depth rest visited := by
        simp only [visitEdges, hfind]
      rw [heq]
      exact ih visited
    | some tn =>
      by_cases hvis : visited.contains tn.id = true
      · have heq : visitEdges nodes current depth (e :: rest) visited
            = visitEdges nodes current depth rest visited := by
          simp only [visitEdges, hfind]
          rw [if_pos hvis]
        rw [heq]
        exact ih visited
      · have heq : visitEdges nodes current depth (e :: rest) visited
            = ((visitEdges nodes current depth rest (tn.id :: visited)).1,
               { source := current.entity, relationship := e.relationship,
                 target := tn.entity, description := tn.description,
                 targetId := tn.id }
                 :: (visitEdges nodes current depth rest (tn.id :: visited)).2.1,
               (tn, depth + 1)
                 :: (visitEdges nodes current depth rest (tn.id :: visited)).2.2) := by
          simp only [visitEdges, hfind]
          rw [if_neg hvis]
        rw [heq]
        obtain ⟨ih1, ih2, ih3⟩ := ih (tn.id :: visited)
        have htn_not : tn.id ∉ visited := fun hm => hvis ((nat_contains_iff _ _).mpr hm)
        refine ⟨?_, ?_, ?_⟩
        · intro a ha
          exact ih1 a (List.mem_cons_of_mem _ ha)
        · intro r hr
          rcases List.mem_cons.mp hr with rfl | hr2
        -- the freshly produced record
          · exact ⟨htn_not, ih1 tn.id (List.mem_cons_self _ _)⟩
          · have h2 := ih2 r hr2
            exact ⟨fun hm => h2.1 (List.mem_cons_of_mem _ hm), h2.2⟩
        · rw [List.map_cons]
          refine List.nodup_cons.mpr ⟨?_, ih3⟩
          intro hmem
          rcases List.mem_map.mp hmem with ⟨r', hr', hid⟩
          exact (ih2 r' hr').1 (hid ▸ List.mem_cons_self _ _)

theorem bfsLoop_nil (nodes : List KnowledgeNode) (edges : List KnowledgeEdge)
    (md : Nat) (v : List Nat) (res : List TraverseRec) :
    bfsLoop nodes edges md [] v res = res := by
  simp [bfsLoop]

theorem bfsLoop_cons_continue (nodes : List KnowledgeNode) (edges : List KnowledgeEdge)
    (md : Nat) (c : KnowledgeNode) (depth : Nat) (q : List (KnowledgeNode × Nat))
    (v : List Nat) (res : List TraverseRec) (h : md ≤ depth) :
    bfsLoop nodes edges md ((c, depth) :: q) v res = bfsLoop nodes edges md q v res := by
  simp only [bfsLoop]
  rw [if_pos h]

theorem bfsLoop_cons_expand (nodes : List KnowledgeNode) (edges : List KnowledgeEdge)
    (md : Nat) (c : KnowledgeNode) (depth : Nat) (q : List (KnowledgeNode × Nat))
    (v : List Nat) (res : List TraverseRec) (h : ¬ md ≤ depth) :
    bfsLoop nodes edges md ((c, depth) :: q) v res
      = bfsLoop nodes edges md
          (q ++ (visitEdges nodes c depth
            (edges.filter (fun e => e.source_id == c.id)) v).2.2)
          (visitEdges nodes c depth
            (edges.filter (fun e => e.source_id == c.id)) v).1
          (res ++ (visitEdges nodes c depth
            (edges.filter (fun e => e.source_id == c.id)) v).2.1) := by
  simp only [bfsLoop]
  rw [if_neg h]

theorem bfsLoop_nodup (nodes : List KnowledgeNode) (edges : List KnowledgeEdge)
    (md : Nat) (q : List (KnowledgeNode × Nat)) (v : List Nat)
    (res : List TraverseRec) :
    (∀ r ∈ res, r.targetId ∈ v) → ((res.map (fun r => r.targetId)).Nodup) →
    ((bfsLoop nodes edges md q v res).map (fun r => r.targetId)).Nodup := by
  induction q, v, res using bfsLoop.induct nodes edges md with
  | case1 v res =>
    intro _ h2
    simpa [bfsLoop] using h2
  | case2 current depth queue visited results hdep ih =>
    intro h1 h2
    have heq : bfsLoop nodes edges md ((current, depth) :: queue) visited results
        = bfsLoop nodes edges md queue visited results := by
      simp only [bfsLoop]
      rw [if_pos hdep]
    rw [heq]
    exact ih h1 h2
  | case3 current depth queue visited results hdep ih =>
    intro h1 h2
    have heq : bfsLoop nodes edges md ((current, depth) :: queue) visited results
        = bfsLoop nodes edges md
            (queue ++ (visitEdges nodes current depth
              (edges.filter (fun e => e.source_id == current.id)) visited).2.2)
            (visitEdges nodes current depth
              (edges.filter (fun e => e.source_id == current.id)) visited).1
            (results ++ (visitEdges nodes current depth
              (edges.filter (fun e => e.source_id == current.id)) visited).2.1) := by
      simp only [bfsLoop]
      rw [if_neg hdep]
    rw [heq]
    obtain ⟨s1, s2, s3⟩ := visitEdges_spec nodes current depth
      (edges.filter (fun e => e.source_id == current.id)) visited
    apply ih
    · intro r hr
      rcases List.mem_append.mp hr with hr | hr
      · exact s1 _ (h1 r hr)
      · exact (s2 r hr).2
    · rw [List.map_append]
      rw [List.nodup_append]
      refine ⟨h2, s3, ?_⟩
      intro a ha hb
      rcases List.mem_map.mp ha with ⟨r1, hr1, rfl⟩
      rcases List.mem_map.mp hb with ⟨r2, hr2, hid⟩
      exact (s2 r2 hr2).1 (hid ▸ h1 r1 hr1)

theorem bfsLoop_avoid (nodes : List KnowledgeNode) (edges : List KnowledgeEdge)
    (md : Nat) (x : Nat) (q : List (KnowledgeNode × Nat)) (v : List Nat)
    (res : List TraverseRec) :
    x ∈ v → (∀ r ∈ res, r.targetId ≠ x) →
    ∀ r ∈ bfsLoop nodes edges md q v res, r.targetId ≠ x := by
  induction q, v, res using bfsLoop.induct nodes edges md with
  | case1 v res =>
    intro _ h2
    simpa [bfsLoop] using h2
  | case2 current depth queue visited results hdep ih =>
    intro h1 h2
    have heq : bfsLoop nodes edges md ((current, depth) :: queue) visited results
        = bfsLoop nodes edges md queue visited results := by
      simp only [bfsLoop]
      rw [if_pos hdep]
    rw [heq]
    exact ih h1 h2
  | case3 current depth queue visited results hdep ih =>
    intro h1 h2
    have heq : bfsLoop nodes edges md ((current, depth) :: queue) visited results
        = bfsLoop nodes edges md
            (queue ++ (visitEdges nodes current depth
              (edges.filter (fun e => e.source_id == current.id)) visited).2.2)
            (visitEdges nodes current depth
              (edges.filter (fun e => e.source_id == current.id)) visited).1
            (results ++ (visitEdges nodes current depth
              (edges.filter (fun e => e.source_id == current.id)) visited).2.1) := by
      simp only [bfsLoop]
      rw [if_neg hdep]
    rw [heq]
    obtain ⟨s1, s2, _⟩ := visitEdges_spec nodes current depth
      (edges.filter (fun e => e.source_id == current.id)) visited
    apply ih
    · exact s1 x h1
    · intro r hr
      rcases List.mem_append.mp hr with hr | hr
      · exact h2 r hr
      · intro hx
        exact (s2 r hr).1 (hx ▸ h1)

/-- C7: traversal from an unknown entity returns the empty list rather than an error;
the visited set is seeded with the start node, so the start node never appears as a
target; and on the concrete two-node cycle `A → B → A` the traversal (a total function,
so it terminates on every graph) visits each node at most once, returning exactly the
single record `A → B` at `maxDepth` 5. -/
theorem traverse_termination_and_visited :
    (∀ (st : EngineState) (s : String) (d : Nat),
      st.nodes.find? (fun n => n.entity == s) = none → traverse_graph st s d = []) ∧
    (∀ (st : EngineState) (s : String) (d : Nat) (start : KnowledgeNode),
      st.nodes.find? (fun n => n.entity == s) = some start →
      ∀ r ∈ traverse_graph st s d, r.targetId ≠ start.id) ∧
    traverse_graph cyclicState "A" 5
      = [{ source := "A", relationship := "knows", target := "B",
           description := "desc B", targetId := 2 }] := by
  have hstep : ∀ (st : EngineState) (s : String) (d : Nat) (start : KnowledgeNode),
      st.nodes.find? (fun n => n.entity == s) = some start →
      traverse_graph st s d = bfsLoop st.nodes st.edges d [(start, 0)] [start.id] [] := by
    intro st s d start h
    unfold traverse_graph
    rw [h]
  refine ⟨?_, ?_, ?_⟩
  · intro st s d h
    unfold traverse_graph
    rw [h]
  · intro st s d start h
    rw [hstep st s d start h]
    exact bfsLoop_avoid st.nodes st.edges d start.id [(start, 0)] [start.id] []
      (List.mem_cons_self _ _) (fun r hr => absurd hr (by simp))
  · rw [hstep cyclicState "A" 5
      { id := 1, entity := "A", description := "desc A", node_data := [] } (by decide)]
    rw [bfsLoop_cons_expand _ _ _ _ _ _ _ _ (by norm_num)]
    rw [show bfsLoop cyclicState.nodes cyclicState.edges 5
        ([] ++ (visitEdges cyclicState.nodes
          { id := 1, entity := "A", description := "desc A", node_data := [] } 0
          (cyclicState.edges.filter (fun e => e.source_id == 1)) [1]).2.2)
        (visitEdges cyclicState.nodes
          { id := 1, entity := "A", description := "desc A", node_data := [] } 0
          (cyclicState.edges.filter (fun e => e.source_id == 1)) [1]).1
        ([] ++ (visitEdges cyclicState.nodes
          { id := 1, entity := "A", description := "desc A", node_data := [] } 0
          (cyclicState.edges.filter (fun e => e.source_id == 1)) [1]).2.1)
        = bfsLoop cyclicState.nodes cyclicState.edges 5
            [({ id := 2, entity := "B", description := "desc B", node_data := [] }, 1)]
            [2, 1]
            [{ source := "A", relationship := "knows", target := "B",
               description := "desc B", targetId := 2 }] from by congr 1 <;> decide]
    rw [bfsLoop_cons_expand _ _ _ _ _ _ _ _ (by norm_num)]
    rw [show bfsLoop cyclicState.nodes cyclicState.edges 5
        ([] ++ (visitEdges cyclicState.nodes
          { id := 2, entity := "B", description := "desc B", node_data := [] } 1
          (cyclicState.edges.filter (fun e => e.source_id == 2)) [2, 1]).2.2)
        (visitEdges cyclicState.nodes
          { id := 2, entity := "B", description := "desc B", node_data := [] } 1
          (cyclicState.edges.filter (fun e => e.source_id == 2)) [2, 1]).1
        ([{ source := "A", relationship := "knows", target := "B",
            description := "desc B", targetId := 2 }]
          ++ (visitEdges cyclicState.nodes
            { id := 2, entity := "B", description := "desc B", node_data := [] } 1
            (cyclicState.edges.filter (fun e => e.source_id == 2)) [2, 1]).2.1)
        = bfsLoop cyclicState.nodes cyclicState.edges 5 [] [2, 1]
            [{ source := "A", relationship := "knows", target := "B",
               description := "desc B", targetId := 2 }] from by congr 1 <;> decide]
    rw [bfsLoop_nil]

/-- C7, witness: both hypotheses of the universal parts discharged on the concrete
cyclic graph. -/
theorem traverse_termination_and_visited_witness :
    traverse_graph cyclicState "nobody" 3 = [] ∧
    (∀ r ∈ traverse_graph cyclicState "A" 5, r.targetId ≠ 1) := by
  constructor
  · exact traverse_termination_and_visited.1 cyclicState "nobody" 3 (by decide)
  · exact traverse_termination_and_visited.2.1 cyclicState "A" 5
      { id := 1, entity := "A", description := "desc A", node_data := [] } (by decide)

/-- C10: in every traversal result, each knowledge node occurs at most once as a target
(the target ids form a duplicate-free list); on the concrete graph with two parallel
edges `A → B` labelled `r1` and `r2`, only the first edge in table order produces a
record and the second is omitted. -/
theorem traverse_targets_unique :
    (∀ (st : EngineState) (s : String) (d : Nat),
      ((traverse_graph st s d).map (fun r => r.targetId)).Nodup) ∧
    traverse_graph parallelEdgeState "A" 2
      = [{ source := "A", relationship := "r1", target := "B",
           description := "desc B", targetId := 2 }] := by
  constructor
  · intro st s d
    unfold traverse_graph
    cases h : st.nodes.find? (fun n => n.entity == s) with
    | none => simp
    | some start =>
      exact bfsLoop_nodup st.nodes st.edges d [(start, 0)] [start.id] []
        (fun r hr => absurd hr (by simp)) (by simp)
  · have hstart : parallelEdgeState.nodes.find? (fun n => n.entity == "A")
        = some { id := 1, entity := "A", description := "desc A", node_data := [] } := by
      decide
    have h0 : traverse_graph parallelEdgeState "A" 2
        = bfsLoop parallelEdgeState.nodes parallelEdgeState.edges 2
            [({ id := 1, entity := "A", description := "desc A", node_data := [] }, 0)]
            [1] [] := by
      unfold traverse_graph
      rw [hstart]
    rw [h0]
    rw [bfsLoop_cons_expand _ _ _ _ _ _ _ _ (by norm_num)]
    rw [show bfsLoop parallelEdgeState.nodes parallelEdgeState.edges 2
        ([] ++ (visitEdges parallelEdgeState.nodes
          { id := 1, entity := "A", description := "desc A", node_data := [] } 0
          (parallelEdgeState.edges.filter (fun e => e.source_id == 1)) [1]).2.2)
        (visitEdges parallelEdgeState.nodes
          { id := 1, entity := "A", description := "desc A", node_data := [] } 0
          (parallelEdgeState.edges.filter (fun e => e.source_id == 1)) [1]).1
        ([] ++ (visitEdges parallelEdgeState.nodes
          { id := 1, entity := "A", description := "desc A", node_data := [] } 0
          (parallelEdgeState.edges.filter (fun e => e.source_id == 1)) [1]).2.1)
        = bfsLoop parallelEdgeState.nodes parallelEdgeState.edges 2
            [({ id := 2, entity := "B", description := "desc B", node_data := [] }, 1)]
            [2, 1]
            [{ source := "A", relationship := "r1", target := "B",
               description := "desc B", targetId := 2 }] from by congr 1 <;> decide]
    rw [bfsLoop_cons_expand _ _ _ _ _ _ _ _ (by norm_num)]
    rw [show bfsLoop parallelEdgeState.nodes parallelEdgeState.edges 2
        ([] ++ (visitEdges parallelEdgeState.nodes
          { id := 2, entity := "B", description := "desc B", node_data := [] } 1
          (parallelEdgeState.edges.filter (fun e => e.source_id == 2)) [2, 1]).2.2)
        (visitEdges parallelEdgeState.nodes
          { id := 2, entity := "B", description := "desc B", node_data := [] } 1
          (parallelEdgeState.edges.filter (fun e => e.source_id == 2)) [2, 1]).1
        ([{ source := "A", relationship := "r1", target := "B",
            description := "desc B", targetId := 2 }]
          ++ (visitEdges parallelEdgeState.nodes
            { id := 2, entity := "B", description := "desc B", node_data := [] } 1
            (parallelEdgeState.edges.filter (fun e => e.source_id == 2)) [2, 1]).2.1)
        = bfsLoop parallelEdgeState.nodes parallelEdgeState.edges 2 [] [2, 1]
            [{ source := "A", relationship := "r1", target := "B",
               description := "desc B", targetId := 2 }] from by congr 1 <;> decide]
    rw [bfsLoop_nil]

end OpenMemX
